import Mathlib

/-!
Verification of the `logical` repository's algebraic core
(`logical/algebra/structure.py`, `logical/algebra/functions.py`,
`logical/algebra/canonical.py`).

Modelling conventions:
* Python integers are `ℤ`.  Python `%` on a positive modulus agrees with
  `Int.emod`, and Python `//` on a positive divisor agrees with `Int.ediv`
  (the `/` of `ℤ` here); all divisions/reductions in the source use positive
  right-hand sides wherever elements exist.
* A wrapped `Element` is represented by its underlying integer value: every
  observable operation of the generated `Element` classes (`__eq__`, `__lt__`,
  `__hash__`, `__bool__`, `__add__`, `__mul__`, `__neg__`) depends only on
  `self.value` and the owning structure's operation functions.  The
  owner-carrying record `PyElement` below additionally models the
  back-reference for the equality/hash/ordering claims.
* `float('nan')` sentinels and Python `None` are modelled by the `PyVal`
  universe; comparing a wrapped element against a non-element (the
  `Element.__eq__` body reads `other.value`) raises `AttributeError`,
  modelled with `Except`.
* Attribute lookup of a missing `identity_add` / `identity_mul` is the
  `getattr(self, ..., float('nan'))` of `Structure.__getitem__` /
  `Field.__getitem__`; it never produces `None`.
* `Structure.set` is a Python `set[int]`; it is modelled as a `List ℤ`
  (deduplicated and sorted where the source sorts or materialises the set).
  Identity discovery iterates the element set in unspecified Python set
  order; for every structure considered here a passing candidate is unique
  (or none exists), so the sorted iteration order below is equivalent.
-/

set_option linter.unusedVariables false

namespace Logical

/-- Universe of Python values reachable where the source mixes wrapped
elements with the `float('nan')` sentinel or `None`. -/
inductive PyVal where
  | elem (v : ℤ)
  | nan
  | none
deriving DecidableEq

/-- Wraps the result of an identity search the way
`getattr(self, 'identity_add', float('nan'))` does: a found identity is an
element, a missing one is the `nan` sentinel (never `None`). -/
def pyOfOption : Option ℤ → PyVal
  | Option.some v => PyVal.elem v
  | Option.none => PyVal.nan

/-- Embeds the `OR` gate of `gates/binary.py`: `int(a or b)` on ints
(the `@cast` decorator converts the result to `int`). -/
def OR (a b : ℤ) : ℤ := if a ≠ 0 then a else b

/-- Embeds the `AND` gate of `gates/binary.py`: `int(a and b)` on ints. -/
def AND (a b : ℤ) : ℤ := if a ≠ 0 then b else a

/-- Embeds the `NOT` gate of `gates/unary.py`: `int(not a)`. -/
def NOT (a : ℤ) : ℤ := if a ≠ 0 then 0 else 1

/-- Insertion step of the sort used to model Python `sorted`. -/
def insertSorted (x : ℤ) : List ℤ → List ℤ
  | [] => [x]
  | y :: ys => if x ≤ y then x :: y :: ys else y :: insertSorted x ys

/-- Models Python `sorted` on a list of element values (elements are ordered
by `Element.__lt__`, i.e. by value). -/
def sortList : List ℤ → List ℤ
  | [] => []
  | x :: xs => insertSorted x (sortList xs)

/-- Models the deduplication a Python `set` performs on its members. -/
def dedupList : List ℤ → List ℤ
  | [] => []
  | x :: xs => if x ∈ dedupList xs then dedupList xs else x :: dedupList xs

/-- Embeds `itertools.product(l, repeat=n)`: all `n`-tuples over `l`, first
component varying slowest. -/
def listProd (l : List ℤ) : ℕ → List (List ℤ)
  | 0 => [[]]
  | n + 1 => l.flatMap (fun x => (listProd l n).map (fun t => x :: t))

/-- Embeds `find_additive_identity` (structure.py lines 29-30): the first
element `x` of the element set with `x + y == y` for every `y`. -/
def find_additive_identity (elements : List ℤ) (add : ℤ → ℤ → ℤ) : Option ℤ :=
  elements.find? (fun x => elements.all (fun y => add x y == y))

/-- Embeds `find_multiplicative_identity` (structure.py lines 33-34). -/
def find_multiplicative_identity (elements : List ℤ) (mul : ℤ → ℤ → ℤ) : Option ℤ :=
  elements.find? (fun x => elements.all (fun y => mul x y == y))

/-- Embeds the `Structure` dataclass (structure.py lines 37-133): a named
integer carrier with `add`, `mul` and `inv` operation functions. -/
structure Structure where
  name : String
  set : List ℤ
  add : ℤ → ℤ → ℤ
  mul : ℤ → ℤ → ℤ
  inv : ℤ → ℤ

/-- The element set of a structure, as the sorted list of carrier values
(`sorted(self.elements)`; `Element.__lt__` compares values). -/
def sortedElems (S : Structure) : List ℤ := sortList (dedupList S.set)

/-- Embeds `Structure.__getitem__(0)`: `getattr(self, 'identity_add', float('nan'))`
after the eager identity search of `__post_init__`. -/
def Structure.item0pv (S : Structure) : PyVal :=
  pyOfOption (find_additive_identity (sortedElems S) S.add)

/-- Embeds `Structure.__getitem__(1)`: the multiplicative analogue. -/
def Structure.item1pv (S : Structure) : PyVal :=
  pyOfOption (find_multiplicative_identity (sortedElems S) S.mul)

/-- Embeds `Structure.__getitem__` (structure.py lines 64-69) including the
`ValueError` branch for a selector outside `{0, 1}`. -/
def Structure.item (S : Structure) (i : ℤ) : Except String PyVal :=
  if i = 0 then Except.ok S.item0pv
  else if i = 1 then Except.ok S.item1pv
  else Except.error "ValueError: invalid identity"

/-- Embeds `Structure.__call__` (structure.py lines 81-83): wraps a raw value
when it is a carrier member, raises `ValueError` otherwise. -/
def Structure.call (S : Structure) (v : ℤ) : Except String ℤ :=
  if v ∈ S.set then Except.ok v
  else Except.error "ValueError"

/-- Embeds `Structure.operands(n)` (structure.py lines 128-129):
`product(sorted(self.elements), repeat=n)`. -/
def Structure.operands (S : Structure) (n : ℕ) : List (List ℤ) :=
  listProd (sortedElems S) n

/-- Embeds `B = Structure('B', {0, 1}, OR, AND, NOT)` (structure.py line 136). -/
def B : Structure := ⟨"B", [0, 1], OR, AND, NOT⟩

/-- Embeds the divisor enumeration of `D.__new__` (structure.py line 148):
`{i for k in range(1, isqrt(n) + 1) if not n % k for i in {k, n // k}}`
(as a list with possible repeats; the Python set deduplicates, and all
membership-level facts below are unaffected by repeats). -/
def Dset (n : ℕ) : List ℤ :=
  (((List.range (Nat.sqrt n)).map (fun k => k + 1)).filter (fun k => n % k == 0)).flatMap
    (fun k => [(k : ℤ), ((n / k : ℕ) : ℤ)])

/-- Embeds the `D` factory (structure.py lines 139-149):
`Structure(f'D{n}', divisors, lcm, gcd, floordiv)` with
`floordiv(x) = n // x`. -/
def D (n : ℕ) : Structure :=
  ⟨"D" ++ toString n, Dset n,
   fun a b => (Int.lcm a b : ℤ),
   fun a b => (Int.gcd a b : ℤ),
   fun x => (n : ℤ) / x⟩

/-- Embeds the `Field` dataclass (structure.py lines 152-266): carrier is the
contiguous range `[0, ord)`. -/
structure Field where
  name : String
  ord : ℕ
  add : ℤ → ℤ → ℤ
  mul : ℤ → ℤ → ℤ

/-- The element values of a field: `range(self.ord)` (already sorted). -/
def fieldElems (F : Field) : List ℤ := (List.range F.ord).map (fun k : ℕ => (k : ℤ))

/-- Value-level `Element.__add__` of a field element (structure.py lines
247-248): `instance.add(...)` followed by the `% instance.ord` reduction of
`Element.__init__`.  Only invoked where elements exist, hence `ord > 0`. -/
def Field.eadd (F : Field) (a b : ℤ) : ℤ := F.add a b % (F.ord : ℤ)

/-- Value-level `Element.__mul__` of a field element (structure.py lines
250-251). -/
def Field.emul (F : Field) (a b : ℤ) : ℤ := F.mul a b % (F.ord : ℤ)

/-- Embeds `Field.__getitem__(0)` (structure.py lines 176-178). -/
def Field.item0pv (F : Field) : PyVal :=
  pyOfOption (find_additive_identity (fieldElems F) F.eadd)

/-- Embeds `Field.__getitem__(1)` (structure.py lines 179-180). -/
def Field.item1pv (F : Field) : PyVal :=
  pyOfOption (find_multiplicative_identity (fieldElems F) F.emul)

/-- Embeds `Field.add_inv` (structure.py lines 187-189): identity maps to
itself, otherwise linear search with the additive identity as fallback;
comparing against a missing (`nan`) identity raises `AttributeError`. -/
def Field.add_inv (F : Field) (v : ℤ) : Except String ℤ :=
  match F.item0pv with
  | PyVal.elem z =>
      if v = z then Except.ok v
      else Except.ok (((fieldElems F).find? (fun el => F.eadd v el == z)).getD z)
  | _ => Except.error "AttributeError"

/-- Embeds `Field.mul_inv` (structure.py lines 203-206): the additive
identity maps to the `nan` sentinel, the multiplicative identity to itself,
otherwise linear search with the multiplicative identity as fallback. -/
def Field.mul_inv (F : Field) (v : ℤ) : Except String PyVal :=
  match F.item0pv with
  | PyVal.elem z =>
      if v = z then Except.ok PyVal.nan
      else
        match F.item1pv with
        | PyVal.elem u =>
            Except.ok (PyVal.elem (if v = u then v
              else (((fieldElems F).find? (fun el => F.emul v el == u)).getD u)))
        | _ => Except.error "AttributeError"
  | _ => Except.error "AttributeError"

/-- The square-and-multiply loop of `Field.pow` (structure.py lines 196-201),
with an explicit fuel argument (the initial exponent, which bounds the number
of halvings) so the definition is structurally recursive. -/
def powLoopFuel (F : Field) : ℕ → ℕ → ℤ → ℤ → ℤ
  | 0, _, res, _ => res
  | fuel + 1, e, res, base =>
      if e = 0 then res
      else powLoopFuel F fuel (e / 2) (if e % 2 = 1 then F.emul res base else res)
        (F.emul base base)

/-- Embeds `Field.pow` (structure.py lines 191-201) for nonnegative
exponents: degenerate orders short-circuit to `self[0]`, exponent `0` to
`self[1]`, a base equal to an existing identity to itself, and otherwise the
square-and-multiply loop runs from `res = self[1]` (a missing multiplicative
identity would make `res *= base` fail on the `nan` seed). -/
def Field.pow_nn (F : Field) (base : ℤ) (exp : ℕ) : Except String PyVal :=
  if F.ord = 0 ∨ F.ord = 1 then Except.ok F.item0pv
  else if exp = 0 then Except.ok F.item1pv
  else if F.item0pv = PyVal.elem base ∨ F.item1pv = PyVal.elem base then
    Except.ok (PyVal.elem base)
  else
    match F.item1pv with
    | PyVal.elem u => Except.ok (PyVal.elem (powLoopFuel F exp exp u base))
    | _ => Except.error "TypeError"

/-- Embeds `Field.pow` (structure.py lines 191-201): a negative exponent is
routed through `mul_inv(pow(base, -exp))`.  When the inner `pow` returns the
`nan` sentinel (only possible at `ord = 0`, where the element set is empty),
`mul_inv` compares `nan` with the two `nan` identity slots (false) and scans
no elements, returning its `nan` default. -/
def Field.pow (F : Field) (base exp : ℤ) : Except String PyVal :=
  if exp < 0 then
    match F.pow_nn base (-exp).toNat with
    | Except.ok (PyVal.elem v) => F.mul_inv v
    | Except.ok _ => Except.ok PyVal.nan
    | Except.error e => Except.error e
  else F.pow_nn base exp.toNat

/-- Embeds `Field.__call__` (structure.py lines 214-215):
`self._elements[value % self.ord]`, which reduces any integer modulo the
order (and raises `ZeroDivisionError` for order `0`). -/
def Field.call (F : Field) (v : ℤ) : Except String ℤ :=
  if F.ord = 0 then Except.error "ZeroDivisionError"
  else Except.ok (v % (F.ord : ℤ))

/-- Builds the predefined Galois fields (structure.py lines 269-276):
`Field('GFp', p, operator.add, operator.mul)`. -/
def stdField (p : ℕ) : Field := ⟨"GF" ++ toString p, p, fun a b => a + b, fun a b => a * b⟩

/-- Embeds `GF2` (structure.py line 269). -/
def GF2 : Field := stdField 2
/-- Embeds `GF3` (structure.py line 270). -/
def GF3 : Field := stdField 3
/-- Embeds `GF5` (structure.py line 271). -/
def GF5 : Field := stdField 5
/-- Embeds `GF7` (structure.py line 272). -/
def GF7 : Field := stdField 7
/-- Embeds `GF11` (structure.py line 273). -/
def GF11 : Field := stdField 11
/-- Embeds `GF13` (structure.py line 274). -/
def GF13 : Field := stdField 13
/-- Embeds `GF17` (structure.py line 275). -/
def GF17 : Field := stdField 17
/-- Embeds `GF19` (structure.py line 276). -/
def GF19 : Field := stdField 19

/-- The element-level interface a `Structure` or `Field` presents to the
axiom predicates of `functions.py` (which accept either, by duck typing):
the sorted element values, the value-level element operations, unary
negation (which for a `Field` is the `add_inv` search and can raise), and
the two `__getitem__` identity slots. -/
structure AlgView where
  elems : List ℤ
  eadd : ℤ → ℤ → ℤ
  emul : ℤ → ℤ → ℤ
  eneg : ℤ → Except String ℤ
  item0 : PyVal
  item1 : PyVal

/-- The interface of a `Structure`: `Element.__neg__` applies `inv` directly
(structure.py lines 121-122) and never raises. -/
def Structure.view (S : Structure) : AlgView :=
  ⟨sortedElems S, S.add, S.mul, fun v => Except.ok (S.inv v), S.item0pv, S.item1pv⟩

/-- The interface of a `Field`: `Element.__neg__` is `instance.add_inv(self)`
(structure.py lines 256-257). -/
def Field.view (F : Field) : AlgView :=
  ⟨fieldElems F, F.eadd, F.emul, F.add_inv, F.item0pv, F.item1pv⟩

/-- `operands(n)` over the element-level interface. -/
def AlgView.operands (A : AlgView) (n : ℕ) : List (List ℤ) := listProd A.elems n

/-- Comparison of a wrapped element with a `PyVal`: `Element.__eq__` reads
`other.value` (structure.py lines 109-110), so comparing with the `nan`
sentinel or `None` raises `AttributeError`. -/
def elemEqPy (v : ℤ) (w : PyVal) : Except String Bool :=
  match w with
  | PyVal.elem u => Except.ok (v == u)
  | _ => Except.error "AttributeError"

/-- The `!=` comparison derived from `Element.__eq__` by `total_ordering` /
default `__ne__`; raises exactly when `elemEqPy` does. -/
def elemNePy (v : ℤ) (w : PyVal) : Except String Bool :=
  match w with
  | PyVal.elem u => Except.ok (v != u)
  | _ => Except.error "AttributeError"

/-- Python `all()` over a generator whose items may raise: stops at the
first falsy item, propagates the first exception. -/
def pyAll {α : Type} (f : α → Except String Bool) : List α → Except String Bool
  | [] => Except.ok true
  | x :: xs =>
    match f x with
    | Except.ok true => pyAll f xs
    | Except.ok false => Except.ok false
    | Except.error e => Except.error e

/-- Embeds `is_commutative` (functions.py lines 22-23). -/
def is_commutative (A : AlgView) : Bool :=
  (A.operands 2).all (fun t =>
    match t with
    | [x, y] => (A.eadd x y == A.eadd y x) && (A.emul x y == A.emul y x)
    | _ => true)

/-- Embeds `is_distributive` (functions.py lines 26-28). -/
def is_distributive (A : AlgView) : Bool :=
  (A.operands 3).all (fun t =>
    match t with
    | [x, y, z] =>
        (A.emul x (A.eadd y z) == A.eadd (A.emul x y) (A.emul x z)) &&
        (A.eadd x (A.emul y z) == A.emul (A.eadd x y) (A.eadd x z))
    | _ => true)

/-- Embeds `has_identities` (functions.py lines 31-32):
`struct[0] is not None and struct[1] is not None`, where `struct[k]` is an
element or the `nan` sentinel (see `Structure.item0pv`) — never `None`. -/
def has_identities (A : AlgView) : Bool :=
  decide (A.item0 ≠ PyVal.none) && decide (A.item1 ≠ PyVal.none)

/-- One row of `is_complementary` (functions.py line 36):
`x + -x == struct[1] and x * -x == struct[0]` with Python short-circuit
evaluation (`-x` is pure and evaluated to the same value in both operands). -/
def complementaryRow (A : AlgView) (x : ℤ) : Except String Bool :=
  match A.eneg x with
  | Except.error e => Except.error e
  | Except.ok nx =>
    match elemEqPy (A.eadd x nx) A.item1 with
    | Except.error e => Except.error e
    | Except.ok b1 =>
        if b1 then elemEqPy (A.emul x nx) A.item0 else Except.ok false

/-- Embeds `is_complementary` (functions.py lines 35-36). -/
def is_complementary (A : AlgView) : Except String Bool :=
  pyAll (complementaryRow A) A.elems

/-- Embeds `is_boolean_algebraic` (functions.py lines 39-43): the Python
`and` chain evaluates the four predicates in order and short-circuits. -/
def is_boolean_algebraic (A : AlgView) : Except String Bool :=
  if !is_commutative A then Except.ok false
  else if !is_distributive A then Except.ok false
  else if !has_identities A then Except.ok false
  else is_complementary A

/-- One row of `no_zero_dividers` (functions.py line 47): the generator
filter `if a != struct[0] and b != struct[0]` runs first (and can raise),
then the predicate `a * b != struct[0]`; a filtered-out row passes. -/
def nzdRow (A : AlgView) (x y : ℤ) : Except String Bool :=
  match elemNePy x A.item0 with
  | Except.error e => Except.error e
  | Except.ok fx =>
    if fx then
      match elemNePy y A.item0 with
      | Except.error e => Except.error e
      | Except.ok fy =>
          if fy then elemNePy (A.emul x y) A.item0 else Except.ok true
    else Except.ok true

/-- Embeds `no_zero_dividers` (functions.py lines 46-47). -/
def no_zero_dividers (A : AlgView) : Except String Bool :=
  pyAll (fun t =>
    match t with
    | [x, y] => nzdRow A x y
    | _ => Except.ok true) (A.operands 2)

/-- Modelled from the spec: `prime_power` comes from the external
`math_utils` package, which is not part of this repository; spec section 4.4
describes the check as "carrier size is a prime power" (`prime_power(k) !=
(0, 0)` iff `k` is a prime power). -/
def isPrimePowB (k : ℕ) : Bool :=
  (List.range (k + 1)).any (fun p =>
    (2 ≤ p && (List.range p).all (fun d => d < 2 || !(p % d == 0))) &&
    (List.range (k + 1)).any (fun e => 0 < e && p ^ e == k))

/-- Embeds `is_finite_field` (functions.py lines 50-54). -/
def is_finite_field (A : AlgView) : Except String Bool :=
  if !isPrimePowB A.elems.length then Except.ok false
  else if !is_commutative A then Except.ok false
  else if !has_identities A then Except.ok false
  else no_zero_dividers A

/-- Embeds `DNF.__iter__` (canonical.py lines 23-28): the operand tuples on
which the formula is truthy (`Element.__bool__` is `value != 0`), in
enumeration order.  The formula is modelled value-level with an explicit
arity `n` (the source reads the arity off the signature). -/
def minterms (S : Structure) (f : List ℤ → ℤ) (n : ℕ) : List (List ℤ) :=
  (S.operands n).filter (fun t => f t != 0)

/-- Embeds `CNF.__iter__` (canonical.py lines 50-55): for each operand tuple
on which the formula is falsy, the componentwise-negated tuple
(`tuple(-op for op in operands)`). -/
def maxterms (S : Structure) (f : List ℤ → ℤ) (n : ℕ) : List (List ℤ) :=
  ((S.operands n).filter (fun t => f t == 0)).map (fun t => t.map S.inv)

/-- Maps a fallible function over a list, propagating the first error
(models evaluating a Python generator expression item by item). -/
def mapExcept {α β : Type} (g : α → Except String β) : List α → Except String (List β)
  | [] => Except.ok []
  | a :: l => do
      let b ← g a
      let bs ← mapExcept g l
      pure (b :: bs)

/-- Embeds `DNF.__call__` (canonical.py lines 41-43):
`sum((prod(operands, start=identity_mul) for operands in self),
start=identity_add)`.  Python evaluates the `start` attribute lookups:
`identity_add` once up front, `identity_mul` per minterm; a missing identity
attribute is the `nan` slot and the arithmetic on it raises.  `sum`/`prod`
left-fold `Element.__add__`/`Element.__mul__` from the given seed. -/
def DNFcall (S : Structure) (f : List ℤ → ℤ) (n : ℕ) : Except String ℤ :=
  match S.item0pv with
  | PyVal.elem z =>
      (mapExcept (fun t =>
          match S.item1pv with
          | PyVal.elem u => Except.ok (t.foldl S.mul u)
          | _ => Except.error "AttributeError") (minterms S f n)).map
        (fun ps => ps.foldl S.add z)
  | _ => Except.error "AttributeError"

/-- Embeds `CNF.__call__` (canonical.py lines 63-65):
`prod((sum(operands, start=identity_add) for operands in self),
start=identity_mul)`, the dual of `DNFcall`. -/
def CNFcall (S : Structure) (f : List ℤ → ℤ) (n : ℕ) : Except String ℤ :=
  match S.item1pv with
  | PyVal.elem u =>
      (mapExcept (fun c =>
          match S.item0pv with
          | PyVal.elem z => Except.ok (c.foldl S.add z)
          | _ => Except.error "AttributeError") (maxterms S f n)).map
        (fun ss => ss.foldl S.mul u)
  | _ => Except.error "AttributeError"

/-- Owner-carrying model of the generated `Element` classes (structure.py
lines 86-126 and 218-259): a wrapped value plus the back-reference to the
owning structure (identified by name). -/
structure PyElement where
  owner : String
  value : ℤ

/-- Embeds `Element.__eq__` (structure.py lines 109-110 and 241-242):
`self.value == other.value`, ignoring owners. -/
def PyElement.eq (x y : PyElement) : Bool := x.value == y.value

/-- Embeds `Element.__lt__` (structure.py lines 112-113 and 244-245). -/
def PyElement.lt (x y : PyElement) : Bool := decide (x.value < y.value)

/-- Embeds `Element.__hash__` (structure.py lines 103-104 and 235-236):
`return self.value`. -/
def PyElement.hash (x : PyElement) : ℤ := x.value

/-- The element a `Structure` memoises for carrier value `v`. -/
def mkStructElem (S : Structure) (v : ℤ) : PyElement := ⟨S.name, v⟩

/-- The element a `Field` builds for value `v`: `Element.__init__` reduces
`v % instance.ord` (structure.py lines 223-224). -/
def mkFieldElem (F : Field) (v : ℤ) : PyElement := ⟨F.name, v % (F.ord : ℤ)⟩

/-- A closed-operation structure without a multiplicative identity
(`Structure('N', {0, 1}, OR, lambda x, y: 0, NOT)`), used as the concrete
witness input for the identity-sentinel behaviour. -/
def Nbad : Structure := ⟨"N", [0, 1], OR, fun _ _ => 0, NOT⟩

/-- The degenerate field `Field('F0', 0, operator.add, operator.mul)` of
order `0`: its element dictionary is empty and no identity exists. -/
def F0 : Field := ⟨"F0", 0, fun a b => a + b, fun a b => a * b⟩

/-- A closed-operation structure without an additive identity
(`Structure('Z', {0, 1}, lambda x, y: 1, AND, NOT)`). -/
def Nbad0 : Structure := ⟨"Z", [0, 1], fun _ _ => 1, AND, NOT⟩

/-! ### Supporting lemmas -/

theorem pyOfOption_ne_none (o : Option ℤ) : pyOfOption o ≠ PyVal.none := by
  cases o <;> simp [pyOfOption]

theorem mem_listProd {l : List ℤ} {n : ℕ} {t : List ℤ} :
    t ∈ listProd l n ↔ t.length = n ∧ ∀ x ∈ t, x ∈ l := by
  induction n generalizing t with
  | zero =>
      simp only [listProd, List.mem_singleton]
      constructor
      · rintro rfl; simp
      · rintro ⟨h, -⟩; exact List.length_eq_zero.mp h
  | succ n ih =>
      simp only [listProd, List.mem_flatMap, List.mem_map]
      constructor
      · rintro ⟨x, hx, t', ht', rfl⟩
        obtain ⟨hlen, hcomp⟩ := ih.mp ht'
        refine ⟨by simp [hlen], ?_⟩
        intro y hy
        rcases List.mem_cons.mp hy with rfl | hy
        · exact hx
        · exact hcomp y hy
      · rintro ⟨hlen, hcomp⟩
        cases t with
        | nil => simp at hlen
        | cons a t' =>
            refine ⟨a, hcomp a (by simp), t', ih.mpr ⟨by simpa using hlen, ?_⟩, rfl⟩
            intro y hy
            exact hcomp y (List.mem_cons_of_mem a hy)

theorem listProd_append_len (P : List (List ℤ)) (l : List ℤ) :
    (l.flatMap (fun x => P.map (fun t => x :: t))).length = l.length * P.length := by
  induction l with
  | nil => simp
  | cons a l ih =>
      simp only [List.flatMap_cons, List.length_append, List.length_map, ih, List.length_cons]
      ring

theorem length_listProd (l : List ℤ) (n : ℕ) :
    (listProd l n).length = l.length ^ n := by
  induction n with
  | zero => simp [listProd]
  | succ n ih =>
      rw [listProd, listProd_append_len, ih, pow_succ]
      ring

theorem length_filter_partition (p : List ℤ → Bool) (l : List (List ℤ)) :
    (l.filter p).length + (l.filter (fun t => !p t)).length = l.length := by
  induction l with
  | nil => simp
  | cons a l ih =>
      by_cases h : p a = true <;>
        simp [List.filter_cons, h, ih] <;> omega

theorem mapExcept_pure {α β : Type} (g : α → β) (l : List α) :
    mapExcept (fun a => (Except.ok (g a) : Except String β)) l = Except.ok (l.map g) := by
  induction l with
  | nil => rfl
  | cons a l ih => simp only [mapExcept, ih]; rfl

theorem pyAll_total {α : Type} {f : α → Except String Bool} {l : List α}
    (h : ∀ x ∈ l, ∃ b, f x = Except.ok b) : ∃ b, pyAll f l = Except.ok b := by
  induction l with
  | nil => exact ⟨true, rfl⟩
  | cons x xs ih =>
      obtain ⟨b, hb⟩ := h x (by simp)
      cases b with
      | false => exact ⟨false, by simp [pyAll, hb]⟩
      | true =>
          obtain ⟨c, hc⟩ := ih (fun y hy => h y (List.mem_cons_of_mem x hy))
          exact ⟨c, by simp [pyAll, hb, hc]⟩

theorem NOT_cases (x : ℤ) : NOT x = 0 ∨ NOT x = 1 := by
  unfold NOT; split <;> simp

theorem NOT_eq_one_iff (x : ℤ) : NOT x = 1 ↔ x = 0 := by
  unfold NOT; split <;> simp_all

theorem NOT_NOT {x : ℤ} (hx : x = 0 ∨ x = 1) : NOT (NOT x) = x := by
  rcases hx with rfl | rfl <;> rfl

theorem mapNOT_invol {t : List ℤ} (ht : ∀ x ∈ t, x = 0 ∨ x = 1) :
    (t.map NOT).map NOT = t := by
  induction t with
  | nil => rfl
  | cons a t ih =>
      simp only [List.map_cons, List.cons.injEq]
      exact ⟨NOT_NOT (ht a (by simp)), ih (fun x hx => ht x (List.mem_cons_of_mem a hx))⟩

theorem foldl_AND (t : List ℤ) (acc : ℤ) (hacc : acc = 0 ∨ acc = 1)
    (ht : ∀ x ∈ t, x = 0 ∨ x = 1) :
    t.foldl AND acc = if acc = 0 ∨ 0 ∈ t then 0 else 1 := by
  induction t generalizing acc with
  | nil => rcases hacc with rfl | rfl <;> simp
  | cons a t ih =>
      have ha := ht a (by simp)
      have ht' : ∀ x ∈ t, x = 0 ∨ x = 1 := fun x hx => ht x (List.mem_cons_of_mem a hx)
      rw [List.foldl_cons, ih (AND acc a) (by rcases hacc with rfl | rfl <;> simp [AND, ha]) ht']
      rcases hacc with rfl | rfl <;> rcases ha with rfl | rfl <;> simp [AND]

theorem foldl_OR (t : List ℤ) (acc : ℤ) (hacc : acc = 0 ∨ acc = 1)
    (ht : ∀ x ∈ t, x = 0 ∨ x = 1) :
    t.foldl OR acc = if acc = 1 ∨ 1 ∈ t then 1 else 0 := by
  induction t generalizing acc with
  | nil => rcases hacc with rfl | rfl <;> simp
  | cons a t ih =>
      have ha := ht a (by simp)
      have ht' : ∀ x ∈ t, x = 0 ∨ x = 1 := fun x hx => ht x (List.mem_cons_of_mem a hx)
      rw [List.foldl_cons, ih (OR acc a) (by rcases hacc with rfl | rfl <;> simp [OR, ha]) ht']
      rcases hacc with rfl | rfl <;> rcases ha with rfl | rfl <;> simp [OR]

theorem mem_fieldElems {F : Field} {v : ℤ} :
    v ∈ fieldElems F ↔ 0 ≤ v ∧ v < (F.ord : ℤ) := by
  unfold fieldElems
  rw [List.mem_map]
  constructor
  · rintro ⟨k, hk, rfl⟩
    rw [List.mem_range] at hk
    constructor
    · exact Int.natCast_nonneg k
    · omega
  · rintro ⟨h0, h1⟩
    refine ⟨v.toNat, ?_, ?_⟩
    · rw [List.mem_range]; omega
    · omega

theorem emod_mem_fieldElems {F : Field} (h : 0 < F.ord) (a : ℤ) :
    a % (F.ord : ℤ) ∈ fieldElems F := by
  have hne : (F.ord : ℤ) ≠ 0 := by exact_mod_cast h.ne'
  exact mem_fieldElems.mpr ⟨Int.emod_nonneg a hne, Int.emod_lt_of_pos a (by exact_mod_cast h)⟩

/-! ### Claim C3 -/

/-- C3: the claim states that `has_identities` returns `True` iff both
identities exist and in particular `False` when one is missing.  The code
instead tests `struct[k] is not None`, but `__getitem__` returns an element
or the `nan` sentinel — never `None` — so `has_identities` is constantly
`True`: it returns `True` even for `Nbad`, whose multiplicative identity
does not exist.  This contradicts the evident intent of the sentinel design
(the `getattr` default exists precisely to signal a missing identity), so
the code, not the claim, is wrong. -/
theorem C3_has_identities_constant_true :
    has_identities Nbad.view = true ∧
    find_multiplicative_identity (sortedElems Nbad) Nbad.mul = Option.none ∧
    (∀ S : Structure, has_identities S.view = true) ∧
    (∀ F : Field, has_identities F.view = true) := by
  refine ⟨by decide, by decide, ?_, ?_⟩
  · intro S
    simp [has_identities, Structure.view, Structure.item0pv, Structure.item1pv,
      pyOfOption_ne_none]
  · intro F
    simp [has_identities, Field.view, Field.item0pv, Field.item1pv,
      pyOfOption_ne_none]

/-! ### Claim C6 -/

/-- C6: wrapping a raw value is asymmetric: `Structure.__call__` returns the
wrapped element for a carrier member and raises `ValueError` otherwise,
while `Field.__call__` (for positive order) always succeeds and returns the
element of the value reduced modulo the order. -/
theorem C6_call_asymmetry :
    (∀ (S : Structure) (v : ℤ),
      (v ∈ S.set → S.call v = Except.ok v) ∧
      (v ∉ S.set → S.call v = Except.error "ValueError")) ∧
    (∀ (F : Field) (v : ℤ), 0 < F.ord →
      F.call v = Except.ok (v % (F.ord : ℤ)) ∧ v % (F.ord : ℤ) ∈ fieldElems F) := by
  constructor
  · intro S v
    constructor
    · intro hv; simp [Structure.call, hv]
    · intro hv; simp [Structure.call, hv]
  · intro F v h
    refine ⟨by simp [Field.call, h.ne'], emod_mem_fieldElems h v⟩

/-- C6 witness: `B(0)` succeeds, `B(5)` raises, and `GF7(-3)` succeeds with
the value reduced modulo `7`. -/
theorem C6_witness :
    B.call 0 = Except.ok 0 ∧
    B.call 5 = Except.error "ValueError" ∧
    (GF7.call (-3) = Except.ok ((-3) % (GF7.ord : ℤ)) ∧
     (-3) % (GF7.ord : ℤ) ∈ fieldElems GF7) :=
  ⟨(C6_call_asymmetry.1 B 0).1 (by decide),
   (C6_call_asymmetry.1 B 5).2 (by decide),
   C6_call_asymmetry.2 GF7 (-3) (by decide)⟩

/-! ### Claim C10 -/

/-- C10: element equality, ordering and hashing compare only the underlying
value and ignore the owning structure; equal-valued elements of different
structures (or of a structure and a field) compare equal and hash
identically, and cross-structure comparison is total. -/
theorem C10_value_only_comparisons :
    ∀ (S T : Structure) (F : Field) (v w x : ℤ),
      v ∈ S.set → w ∈ T.set → 0 ≤ x → x < (F.ord : ℤ) →
      ((mkStructElem S v).eq (mkStructElem T w) = true ↔ v = w) ∧
      (v = w → (mkStructElem S v).hash = (mkStructElem T w).hash) ∧
      ((mkStructElem S v).eq (mkFieldElem F x) = true ↔ v = x) ∧
      (v = x → (mkStructElem S v).hash = (mkFieldElem F x).hash) ∧
      ((mkStructElem S v).lt (mkStructElem T w) = true ↔ v < w) := by
  intro S T F v w x hv hw hx0 hx1
  have hred : x % (F.ord : ℤ) = x := Int.emod_eq_of_lt hx0 hx1
  refine ⟨?_, ?_, ?_, ?_, ?_⟩
  · simp [PyElement.eq, mkStructElem]
  · intro h; simp [PyElement.hash, mkStructElem, h]
  · simp [PyElement.eq, mkStructElem, mkFieldElem, hred]
  · intro h; simp [PyElement.hash, mkStructElem, mkFieldElem, hred, h]
  · simp [PyElement.lt, mkStructElem]

/-- C10 witness: the value-`1` elements of `B`, of `Nbad` and of `GF7`
all compare equal and hash identically, while `B(0) < Nbad(1)`. -/
theorem C10_witness :
    ((mkStructElem B 1).eq (mkStructElem Nbad 1) = true ↔ (1 : ℤ) = 1) ∧
    ((1 : ℤ) = 1 → (mkStructElem B 1).hash = (mkStructElem Nbad 1).hash) ∧
    ((mkStructElem B 1).eq (mkFieldElem GF7 1) = true ↔ (1 : ℤ) = 1) ∧
    ((1 : ℤ) = 1 → (mkStructElem B 1).hash = (mkFieldElem GF7 1).hash) ∧
    ((mkStructElem B 1).lt (mkStructElem Nbad 1) = true ↔ (1 : ℤ) < 1) :=
  C10_value_only_comparisons B Nbad GF7 1 1 1 (by decide) (by decide) (by decide) (by decide)

/-! ### Claim C4 -/

theorem complementaryRow_total {A : AlgView} {z u : ℤ} (h0 : A.item0 = PyVal.elem z)
    (h1 : A.item1 = PyVal.elem u) (hneg : ∀ v, ∃ w, A.eneg v = Except.ok w) (x : ℤ) :
    ∃ b, complementaryRow A x = Except.ok b := by
  obtain ⟨w, hw⟩ := hneg x
  refine ⟨if A.eadd x w == u then A.emul x w == z else false, ?_⟩
  unfold complementaryRow
  rw [hw, h0, h1]
  by_cases hc : A.eadd x w == u <;> simp [elemEqPy, hc]

theorem nzdRow_total {A : AlgView} {z : ℤ} (h0 : A.item0 = PyVal.elem z) (x y : ℤ) :
    ∃ b, nzdRow A x y = Except.ok b := by
  unfold nzdRow
  rw [h0]
  by_cases hx : x != z
  · by_cases hy : y != z
    · exact ⟨A.emul x y != z, by simp [elemNePy, hx, hy]⟩
    · exact ⟨true, by simp [elemNePy, hx, hy]⟩
  · exact ⟨true, by simp [elemNePy, hx]⟩

theorem is_complementary_total {A : AlgView} {z u : ℤ} (h0 : A.item0 = PyVal.elem z)
    (h1 : A.item1 = PyVal.elem u) (hneg : ∀ v, ∃ w, A.eneg v = Except.ok w) :
    ∃ b, is_complementary A = Except.ok b :=
  pyAll_total (fun x _ => complementaryRow_total h0 h1 hneg x)

theorem no_zero_dividers_total {A : AlgView} {z : ℤ} (h0 : A.item0 = PyVal.elem z) :
    ∃ b, no_zero_dividers A = Except.ok b := by
  refine pyAll_total ?_
  intro t _
  rcases t with _ | ⟨x, _ | ⟨y, _ | t⟩⟩
  · exact ⟨true, rfl⟩
  · exact ⟨true, rfl⟩
  · exact nzdRow_total h0 x y
  · exact ⟨true, rfl⟩

theorem is_boolean_algebraic_total {A : AlgView} {z u : ℤ} (h0 : A.item0 = PyVal.elem z)
    (h1 : A.item1 = PyVal.elem u) (hneg : ∀ v, ∃ w, A.eneg v = Except.ok w) :
    ∃ b, is_boolean_algebraic A = Except.ok b := by
  unfold is_boolean_algebraic
  split
  · exact ⟨false, rfl⟩
  · split
    · exact ⟨false, rfl⟩
    · split
      · exact ⟨false, rfl⟩
      · exact is_complementary_total h0 h1 hneg

theorem is_finite_field_total {A : AlgView} {z : ℤ} (h0 : A.item0 = PyVal.elem z) :
    ∃ b, is_finite_field A = Except.ok b := by
  unfold is_finite_field
  split
  · exact ⟨false, rfl⟩
  · split
    · exact ⟨false, rfl⟩
    · split
      · exact ⟨false, rfl⟩
      · exact no_zero_dividers_total h0

theorem add_inv_total {F : Field} {z : ℤ} (h0 : F.item0pv = PyVal.elem z) (v : ℤ) :
    ∃ w, F.add_inv v = Except.ok w := by
  unfold Field.add_inv
  rw [h0]
  by_cases hv : v = z <;> simp [hv]

/-- C4: the claim says every axiom-verification predicate is total — returns
a boolean, never raises — on any closed-operation `Structure` or `Field`,
including one lacking an identity.  That fails (see the counterexample): on
a structure whose multiplicative (resp. additive) identity is missing,
`is_complementary` (resp. `no_zero_dividers`) compares an element with the
`nan` sentinel and raises `AttributeError`.  Amended: the predicates are
total on any `Structure` or `Field` that possesses both identities
(`is_commutative`, `is_distributive` and `has_identities` are total by
construction; the four predicates below return a boolean whenever both
identity attributes are set). -/
theorem C4_predicates_total_with_identities :
    (∀ (S : Structure) (z u : ℤ), S.item0pv = PyVal.elem z → S.item1pv = PyVal.elem u →
      (∃ b, is_complementary S.view = Except.ok b) ∧
      (∃ b, no_zero_dividers S.view = Except.ok b) ∧
      (∃ b, is_boolean_algebraic S.view = Except.ok b) ∧
      (∃ b, is_finite_field S.view = Except.ok b)) ∧
    (∀ (F : Field) (z u : ℤ), F.item0pv = PyVal.elem z → F.item1pv = PyVal.elem u →
      (∃ b, is_complementary F.view = Except.ok b) ∧
      (∃ b, no_zero_dividers F.view = Except.ok b) ∧
      (∃ b, is_boolean_algebraic F.view = Except.ok b) ∧
      (∃ b, is_finite_field F.view = Except.ok b)) := by
  constructor
  · intro S z u h0 h1
    have h0v : S.view.item0 = PyVal.elem z := h0
    have h1v : S.view.item1 = PyVal.elem u := h1
    have hneg : ∀ v, ∃ w, S.view.eneg v = Except.ok w := fun v => ⟨S.inv v, rfl⟩
    exact ⟨is_complementary_total h0v h1v hneg, no_zero_dividers_total h0v,
      is_boolean_algebraic_total h0v h1v hneg, is_finite_field_total h0v⟩
  · intro F z u h0 h1
    have h0v : F.view.item0 = PyVal.elem z := h0
    have h1v : F.view.item1 = PyVal.elem u := h1
    have hneg : ∀ v, ∃ w, F.view.eneg v = Except.ok w := fun v => add_inv_total h0 v
    exact ⟨is_complementary_total h0v h1v hneg, no_zero_dividers_total h0v,
      is_boolean_algebraic_total h0v h1v hneg, is_finite_field_total h0v⟩

/-- C4 counterexample: `Nbad` (operations closed over `{0, 1}`, no
multiplicative identity) makes `is_complementary` raise `AttributeError`,
and `Nbad0` (closed, no additive identity) makes `no_zero_dividers` raise —
refuting totality on identity-lacking structures. -/
theorem C4_counterexample :
    (Nbad.set.all (fun x => Nbad.set.all (fun y =>
        decide (Nbad.add x y ∈ Nbad.set) && decide (Nbad.mul x y ∈ Nbad.set)) &&
        decide (Nbad.inv x ∈ Nbad.set)) = true) ∧
    Nbad.item1pv = PyVal.nan ∧
    is_complementary Nbad.view = Except.error "AttributeError" ∧
    (Nbad0.set.all (fun x => Nbad0.set.all (fun y =>
        decide (Nbad0.add x y ∈ Nbad0.set) && decide (Nbad0.mul x y ∈ Nbad0.set)) &&
        decide (Nbad0.inv x ∈ Nbad0.set)) = true) ∧
    Nbad0.item0pv = PyVal.nan ∧
    no_zero_dividers Nbad0.view = Except.error "AttributeError" := by
  refine ⟨by decide, by decide, rfl, by decide, by decide, rfl⟩

/-- C4 witness: the amended theorem applied to `B` and to `GF2`, whose
identities both exist. -/
theorem C4_witness :
    ((∃ b, is_complementary B.view = Except.ok b) ∧
     (∃ b, no_zero_dividers B.view = Except.ok b) ∧
     (∃ b, is_boolean_algebraic B.view = Except.ok b) ∧
     (∃ b, is_finite_field B.view = Except.ok b)) ∧
    ((∃ b, is_complementary GF2.view = Except.ok b) ∧
     (∃ b, no_zero_dividers GF2.view = Except.ok b) ∧
     (∃ b, is_boolean_algebraic GF2.view = Except.ok b) ∧
     (∃ b, is_finite_field GF2.view = Except.ok b)) :=
  ⟨C4_predicates_total_with_identities.1 B 0 1 rfl rfl,
   C4_predicates_total_with_identities.2 GF2 0 1 rfl rfl⟩

/-! ### Claim C5 -/

theorem ord1_item0 {F : Field} (h : F.ord = 1) : F.item0pv = PyVal.elem 0 := by
  have he : fieldElems F = [0] := by unfold fieldElems; rw [h]; rfl
  unfold Field.item0pv find_additive_identity Field.eadd
  rw [he, h]
  simp [Int.emod_one, pyOfOption]

theorem ord0_item0 {F : Field} (h : F.ord = 0) : F.item0pv = PyVal.nan := by
  unfold Field.item0pv find_additive_identity fieldElems
  rw [h]
  rfl

/-- C5: `Field.pow` semantics.  The claim holds for: exponent `0` on a field
of order at least `2` (multiplicative identity), an identity base with a
positive exponent (the base itself), negative exponents (routed through
`mul_inv(pow(base, -exp))`), order `1` with nonnegative exponent (the
additive identity `0`), and the `GF7` facts `pow(3, -1) == mul_inv(3)` and
`3 * mul_inv(3) == identity_mul`.  It fails only for order `0` (see the
counterexample): there is no additive identity and the code returns the
`nan` sentinel, which the amended claim states. -/
theorem C5_pow_semantics (F : Field) (b e : ℤ) :
    (2 ≤ F.ord →
      (∀ u, F.item1pv = PyVal.elem u → F.pow b 0 = Except.ok (PyVal.elem u)) ∧
      (0 < e → (F.item0pv = PyVal.elem b ∨ F.item1pv = PyVal.elem b) →
        F.pow b e = Except.ok (PyVal.elem b)) ∧
      (e < 0 → ∀ v, F.pow b (-e) = Except.ok (PyVal.elem v) → F.pow b e = F.mul_inv v)) ∧
    (F.ord = 1 → 0 ≤ e → F.pow b e = Except.ok (PyVal.elem 0)) ∧
    (F.ord = 0 → 0 ≤ e → F.pow b e = Except.ok PyVal.nan) ∧
    (GF7.pow 3 (-1) = GF7.mul_inv 3 ∧ GF7.mul_inv 3 = Except.ok (PyVal.elem 5) ∧
     GF7.emul 3 5 = 1 ∧ GF7.item1pv = PyVal.elem 1) := by
  refine ⟨?_, ?_, ?_, rfl, rfl, rfl, rfl⟩
  · intro hord
    refine ⟨?_, ?_, ?_⟩
    · intro u hu
      unfold Field.pow Field.pow_nn
      rw [if_neg (by omega : ¬(0 : ℤ) < 0), if_neg (by omega : ¬(F.ord = 0 ∨ F.ord = 1)),
        if_pos (by norm_num : Int.toNat 0 = 0), hu]
    · intro he hid
      unfold Field.pow Field.pow_nn
      rw [if_neg (by omega : ¬e < 0), if_neg (by omega : ¬(F.ord = 0 ∨ F.ord = 1)),
        if_neg (by omega : ¬e.toNat = 0), if_pos hid]
    · intro he v hv
      unfold Field.pow at hv ⊢
      rw [if_neg (by omega : ¬-e < 0)] at hv
      rw [if_pos he, hv]
  · intro h1 he
    unfold Field.pow Field.pow_nn
    rw [if_neg (by omega : ¬e < 0), if_pos (Or.inr h1), ord1_item0 h1]
  · intro h0 he
    unfold Field.pow Field.pow_nn
    rw [if_neg (by omega : ¬e < 0), if_pos (Or.inl h0), ord0_item0 h0]

/-- C5 witness: the theorem instantiated at `GF7` (order `7`, identities `0`
and `1`), at the order-`1` field and at the order-`0` field `F0`. -/
theorem C5_witness :
    GF7.pow 3 0 = Except.ok (PyVal.elem 1) ∧
    GF7.pow 1 5 = Except.ok (PyVal.elem 1) ∧
    GF7.pow 3 (-1) = GF7.mul_inv 3 ∧
    (stdField 1).pow 5 3 = Except.ok (PyVal.elem 0) ∧
    F0.pow 4 2 = Except.ok PyVal.nan :=
  ⟨((C5_pow_semantics GF7 3 0).1 (by decide)).1 1 rfl,
   ((C5_pow_semantics GF7 1 5).1 (by decide)).2.1 (by decide) (Or.inr rfl),
   ((C5_pow_semantics GF7 3 (-1)).1 (by decide)).2.2 (by decide) 3 rfl,
   (C5_pow_semantics (stdField 1) 5 3).2.1 rfl (by decide),
   (C5_pow_semantics F0 4 2).2.2.1 rfl (by decide)⟩

/-- C5 counterexample: for order `0` the claim's "the result is the additive
identity" fails — a field of order `0` has no additive identity at all
(its identity slot holds the `nan` sentinel) and `pow` returns that
sentinel, not an element. -/
theorem C5_counterexample :
    F0.pow 0 0 = Except.ok PyVal.nan ∧
    find_additive_identity (fieldElems F0) F0.eadd = Option.none ∧
    F0.item0pv = PyVal.nan := by
  refine ⟨rfl, rfl, rfl⟩

/-! ### Claim C7 -/

/-- C7: over any structure possessing both identities, a tautology has an
empty maxterm sequence and its `CNF.__call__` reconstruction is exactly the
multiplicative-identity seed of the empty product; dually a contradiction
has an empty minterm sequence and its `DNF.__call__` reconstruction is the
additive-identity seed of the empty sum.  `DNFcall`/`CNFcall` are literal
folds whose base case is the seed — there is no special-cased branch. -/
theorem C7_empty_canonical_forms (S : Structure) (z u : ℤ) (n : ℕ) (f : List ℤ → ℤ)
    (h0 : S.item0pv = PyVal.elem z) (h1 : S.item1pv = PyVal.elem u) :
    ((∀ t ∈ S.operands n, f t ≠ 0) → maxterms S f n = [] ∧ CNFcall S f n = Except.ok u) ∧
    ((∀ t ∈ S.operands n, f t = 0) → minterms S f n = [] ∧ DNFcall S f n = Except.ok z) := by
  constructor
  · intro ht
    have hmax : maxterms S f n = [] := by
      unfold maxterms
      rw [List.filter_eq_nil_iff.mpr (fun a ha => by simpa using ht a ha)]
      rfl
    refine ⟨hmax, ?_⟩
    unfold CNFcall
    rw [h1, hmax]
    simp [mapExcept, Except.map]
  · intro ht
    have hmin : minterms S f n = [] := by
      unfold minterms
      exact List.filter_eq_nil_iff.mpr (fun a ha => by simpa using ht a ha)
    refine ⟨hmin, ?_⟩
    unfold DNFcall
    rw [h0, hmin]
    simp [mapExcept, Except.map]

/-- C7 witness: over `B`, the constant-true formula of arity `1` yields an
empty CNF reconstructing to `1`, and the constant-false formula an empty DNF
reconstructing to `0`. -/
theorem C7_witness :
    (maxterms B (fun _ => 1) 1 = [] ∧ CNFcall B (fun _ => 1) 1 = Except.ok 1) ∧
    (minterms B (fun _ => 0) 1 = [] ∧ DNFcall B (fun _ => 0) 1 = Except.ok 0) :=
  ⟨(C7_empty_canonical_forms B 0 1 1 (fun _ => 1) rfl rfl).1 (fun t _ => one_ne_zero),
   (C7_empty_canonical_forms B 0 1 1 (fun _ => 0) rfl rfl).2 (fun t _ => rfl)⟩

/-! ### Claims C8 and C9 -/

theorem mem_Dset {n : ℕ} (hn : 0 < n) {x : ℤ} :
    x ∈ Dset n ↔ ∃ d : ℕ, x = (d : ℤ) ∧ 0 < d ∧ d ∣ n := by
  unfold Dset
  rw [List.mem_flatMap]
  constructor
  · rintro ⟨k, hk, hx⟩
    rw [List.mem_filter] at hk
    obtain ⟨hkmem, hkdvd⟩ := hk
    rw [List.mem_map] at hkmem
    obtain ⟨j, hj, rfl⟩ := hkmem
    rw [List.mem_range] at hj
    have hdvd : (j + 1) ∣ n := Nat.dvd_of_mod_eq_zero (by simpa using hkdvd)
    simp only [List.mem_cons, List.mem_singleton, List.not_mem_nil, or_false] at hx
    rcases hx with rfl | rfl
    · exact ⟨j + 1, rfl, Nat.succ_pos j, hdvd⟩
    · exact ⟨n / (j + 1), rfl, Nat.div_pos (Nat.le_of_dvd hn hdvd) (Nat.succ_pos j),
        Nat.div_dvd_of_dvd hdvd⟩
  · rintro ⟨d, rfl, hdpos, hdvd⟩
    by_cases hle : d ≤ Nat.sqrt n
    · refine ⟨d, ?_, by simp⟩
      rw [List.mem_filter]
      refine ⟨?_, by simp [Nat.mod_eq_zero_of_dvd hdvd]⟩
      rw [List.mem_map]
      exact ⟨d - 1, List.mem_range.mpr (by omega), by omega⟩
    · have hdd : Nat.sqrt n < d := by omega
      have hnd : n < d * d := Nat.sqrt_lt.mp hdd
      have hed : n / d * d = n := Nat.div_mul_cancel hdvd
      have hepos : 0 < n / d := Nat.div_pos (Nat.le_of_dvd hn hdvd) hdpos
      have helt : n / d < d := by
        by_contra hcon
        push_neg at hcon
        nlinarith
      have hedvd : (n / d) ∣ n := Nat.div_dvd_of_dvd hdvd
      have hesqrt : n / d ≤ Nat.sqrt n := Nat.le_sqrt.mpr (by nlinarith)
      refine ⟨n / d, ?_, ?_⟩
      · rw [List.mem_filter]
        refine ⟨?_, by simp [Nat.mod_eq_zero_of_dvd hedvd]⟩
        rw [List.mem_map]
        exact ⟨n / d - 1, List.mem_range.mpr (by omega), by omega⟩
      · have : n / (n / d) = d := Nat.div_div_self hdvd (by omega)
        simp [this]

theorem add_inv_mem {F : Field} {x z : ℤ} (hx : x ∈ fieldElems F)
    (h : F.add_inv x = Except.ok z) : z ∈ fieldElems F := by
  unfold Field.add_inv at h
  cases hfind : find_additive_identity (fieldElems F) F.eadd with
  | none =>
      rw [show F.item0pv = PyVal.nan from by unfold Field.item0pv; rw [hfind]; rfl] at h
      simp at h
  | some z0 =>
      have hz0 : z0 ∈ fieldElems F := List.mem_of_find?_eq_some hfind
      rw [show F.item0pv = PyVal.elem z0 from by unfold Field.item0pv; rw [hfind]; rfl] at h
      simp only [] at h
      by_cases hv : x = z0
      · rw [if_pos hv] at h
        cases h
        exact hx
      · rw [if_neg hv] at h
        cases hf2 : (fieldElems F).find? (fun el => F.eadd x el == z0) with
        | none =>
            rw [hf2] at h
            cases h
            exact hz0
        | some w =>
            rw [hf2] at h
            cases h
            exact List.mem_of_find?_eq_some hf2

/-- C9: closure invariant — for the Boolean structure `B`, every divisor
lattice `D(n)` and every field of positive order (in particular each
predefined `GFp`), element addition, multiplication and negation stay inside
the element set. -/
theorem C9_closure :
    (∀ x ∈ B.set, ∀ y ∈ B.set, B.add x y ∈ B.set ∧ B.mul x y ∈ B.set ∧ B.inv x ∈ B.set) ∧
    (∀ n : ℕ, 0 < n → ∀ x ∈ (D n).set, ∀ y ∈ (D n).set,
      (D n).add x y ∈ (D n).set ∧ (D n).mul x y ∈ (D n).set ∧ (D n).inv x ∈ (D n).set) ∧
    (∀ F : Field, 0 < F.ord → ∀ x ∈ fieldElems F, ∀ y ∈ fieldElems F,
      F.eadd x y ∈ fieldElems F ∧ F.emul x y ∈ fieldElems F ∧
      (∀ z, F.add_inv x = Except.ok z → z ∈ fieldElems F)) := by
  refine ⟨by decide, ?_, ?_⟩
  · intro n hn x hx y hy
    obtain ⟨d1, rfl, h1p, h1d⟩ := (mem_Dset hn).mp hx
    obtain ⟨d2, rfl, h2p, h2d⟩ := (mem_Dset hn).mp hy
    refine ⟨?_, ?_, ?_⟩
    · have hadd : (D n).add (d1 : ℤ) (d2 : ℤ) = ((d1.lcm d2 : ℕ) : ℤ) := by
        show ((Int.lcm (d1 : ℤ) (d2 : ℤ) : ℕ) : ℤ) = _
        simp [Int.lcm, Int.natAbs_ofNat]
      rw [hadd]
      exact (mem_Dset hn).mpr ⟨d1.lcm d2, rfl, Nat.lcm_pos h1p h2p, Nat.lcm_dvd h1d h2d⟩
    · have hmul : (D n).mul (d1 : ℤ) (d2 : ℤ) = ((d1.gcd d2 : ℕ) : ℤ) := by
        show ((Int.gcd (d1 : ℤ) (d2 : ℤ) : ℕ) : ℤ) = _
        simp [Int.gcd, Int.natAbs_ofNat]
      rw [hmul]
      exact (mem_Dset hn).mpr ⟨d1.gcd d2, rfl, Nat.gcd_pos_of_pos_left d2 h1p,
        (Nat.gcd_dvd_left d1 d2).trans h1d⟩
    · have hinv : (D n).inv (d1 : ℤ) = ((n / d1 : ℕ) : ℤ) := by
        show (n : ℤ) / (d1 : ℤ) = _
        rw [Int.natCast_div]
      rw [hinv]
      exact (mem_Dset hn).mpr ⟨n / d1, rfl, Nat.div_pos (Nat.le_of_dvd hn h1d) h1p,
        Nat.div_dvd_of_dvd h1d⟩
  · intro F hF x hx y hy
    exact ⟨emod_mem_fieldElems hF _, emod_mem_fieldElems hF _,
      fun z hz => add_inv_mem hx hz⟩

/-- C9 witness: closure applied to concrete elements of `B`, of `D(6)` and
of `GF7`. -/
theorem C9_witness :
    (B.add 0 1 ∈ B.set ∧ B.mul 0 1 ∈ B.set ∧ B.inv 0 ∈ B.set) ∧
    ((D 6).add 2 3 ∈ (D 6).set ∧ (D 6).mul 2 3 ∈ (D 6).set ∧ (D 6).inv 2 ∈ (D 6).set) ∧
    (GF7.eadd 3 5 ∈ fieldElems GF7 ∧ GF7.emul 3 5 ∈ fieldElems GF7 ∧
     (∀ z, GF7.add_inv 3 = Except.ok z → z ∈ fieldElems GF7)) :=
  ⟨C9_closure.1 0 (by decide) 1 (by decide),
   C9_closure.2.1 6 (by decide) 2 ((mem_Dset (by decide)).mpr ⟨2, rfl, by decide, by decide⟩)
     3 ((mem_Dset (by decide)).mpr ⟨3, rfl, by decide, by decide⟩),
   C9_closure.2.2 GF7 (by decide) 3 (by decide) 5 (by decide)⟩

/-- C8: the `D(n)` factory produces a structure whose carrier is exactly the
set of positive divisors of `n` (with `add = lcm`, `mul = gcd`,
`inv = n // x` by construction), and concretely `D(6)` has carrier
`{1, 2, 3, 6}`, additive identity `1`, multiplicative identity `6`, and
satisfies `is_boolean_algebraic`. -/
theorem C8_divisor_lattice (n : ℕ) (hn : 0 < n) :
    (∀ d : ℕ, ((d : ℤ) ∈ (D n).set ↔ d ∣ n)) ∧
    sortedElems (D 6) = [1, 2, 3, 6] ∧
    (D 6).item0pv = PyVal.elem 1 ∧
    (D 6).item1pv = PyVal.elem 6 ∧
    is_boolean_algebraic (D 6).view = Except.ok true := by
  have hsq : Nat.sqrt 6 = 2 := by
    have h1 : 2 ≤ Nat.sqrt 6 := Nat.le_sqrt.mpr (by norm_num)
    have h2 : Nat.sqrt 6 < 3 := Nat.sqrt_lt.mpr (by norm_num)
    omega
  have hset : Dset 6 = [1, 6, 2, 3] := by unfold Dset; rw [hsq]; rfl
  have hsorted : sortedElems (D 6) = [1, 2, 3, 6] := by
    unfold sortedElems
    rw [show (D 6).set = Dset 6 from rfl, hset]
    rfl
  have h0 : (D 6).item0pv = PyVal.elem 1 := by
    unfold Structure.item0pv find_additive_identity
    rw [hsorted]
    rfl
  have h1 : (D 6).item1pv = PyVal.elem 6 := by
    unfold Structure.item1pv find_multiplicative_identity
    rw [hsorted]
    rfl
  refine ⟨?_, hsorted, h0, h1, ?_⟩
  · intro d
    constructor
    · intro hd
      obtain ⟨e, he, hep, hed⟩ := (mem_Dset hn).mp hd
      have : d = e := by exact_mod_cast he
      rw [this]
      exact hed
    · intro hdvd
      exact (mem_Dset hn).mpr ⟨d, rfl, Nat.pos_of_dvd_of_pos hdvd hn, hdvd⟩
  · have hview : (D 6).view = ⟨[1, 2, 3, 6], (D 6).add, (D 6).mul,
        fun v => Except.ok ((D 6).inv v), PyVal.elem 1, PyVal.elem 6⟩ := by
      unfold Structure.view
      rw [hsorted, h0, h1]
    rw [hview]
    rfl

/-- C8 witness: the theorem applied at `n = 6`, checking `2` is in the
carrier of `D(6)` because `2` divides `6`. -/
theorem C8_witness :
    ((2 : ℤ) ∈ (D 6).set ↔ 2 ∣ 6) ∧ sortedElems (D 6) = [1, 2, 3, 6] :=
  ⟨(C8_divisor_lattice 6 (by decide)).1 2, (C8_divisor_lattice 6 (by decide)).2.1⟩

/-! ### Claims C1 and C2 -/

theorem B_operand_comps {n : ℕ} {t : List ℤ} (ht : t ∈ B.operands n) :
    t.length = n ∧ ∀ x ∈ t, x = 0 ∨ x = 1 := by
  have h := mem_listProd.mp (show t ∈ listProd (sortedElems B) n from ht)
  refine ⟨h.1, fun x hx => ?_⟩
  have hmem := h.2 x hx
  rw [show sortedElems B = [0, 1] from rfl] at hmem
  simpa using hmem

theorem replicate_one_mem_operands (n : ℕ) : List.replicate n 1 ∈ B.operands n := by
  show _ ∈ listProd (sortedElems B) n
  refine mem_listProd.mpr ⟨List.length_replicate n 1, fun x hx => ?_⟩
  rw [List.eq_of_mem_replicate hx, show sortedElems B = [0, 1] from rfl]
  simp

theorem DNFcall_eq {S : Structure} {z u : ℤ} (h0 : S.item0pv = PyVal.elem z)
    (h1 : S.item1pv = PyVal.elem u) (f : List ℤ → ℤ) (n : ℕ) :
    DNFcall S f n
      = Except.ok (((minterms S f n).map (fun t => t.foldl S.mul u)).foldl S.add z) := by
  simp only [DNFcall, h0, h1]
  rw [mapExcept_pure]
  rfl

theorem CNFcall_eq {S : Structure} {z u : ℤ} (h0 : S.item0pv = PyVal.elem z)
    (h1 : S.item1pv = PyVal.elem u) (f : List ℤ → ℤ) (n : ℕ) :
    CNFcall S f n
      = Except.ok (((maxterms S f n).map (fun c => c.foldl S.add z)).foldl S.mul u) := by
  simp only [CNFcall, h0, h1]
  rw [mapExcept_pure]
  rfl

/-- C1 counterexample: over `B`, for the arity-1 formula `f = NOT`,
`DNF(B, f)()` and `CNF(B, f)()` both evaluate to the falsy element `B(0)`,
while direct evaluation of `f` at the input tuple `(0,)` is truthy — so the
reconstruction does not reduce to the same truth value as direct evaluation
for each input tuple. -/
theorem C1_counterexample :
    DNFcall B (fun t => NOT (t.getD 0 0)) 1 = Except.ok 0 ∧
    CNFcall B (fun t => NOT (t.getD 0 0)) 1 = Except.ok 0 ∧
    [0] ∈ B.operands 1 ∧
    NOT ((0 : ℤ)) = 1 ∧
    ¬((0 : ℤ) ≠ 0 ↔ (1 : ℤ) ≠ 0) := by
  refine ⟨rfl, rfl, by decide, rfl, by simp⟩

/-- C1 (amended): `DNF(B, f).__call__()` and `CNF(B, f).__call__()` return
the Boolean element whose truth value equals direct evaluation of `f` at the
all-ones operand tuple (the tuple of multiplicative identities), for every
formula `f` of arity `n` — not at each input tuple. -/
theorem C1_reconstruction_all_ones (n : ℕ) (f : List ℤ → ℤ) :
    DNFcall B f n = Except.ok (if f (List.replicate n 1) = 0 then 0 else 1) ∧
    CNFcall B f n = Except.ok (if f (List.replicate n 1) = 0 then 0 else 1) := by
  have hBadd : B.add = OR := rfl
  have hBmul : B.mul = AND := rfl
  have hBinv : B.inv = NOT := rfl
  constructor
  · rw [DNFcall_eq (show B.item0pv = PyVal.elem 0 from rfl)
        (show B.item1pv = PyVal.elem 1 from rfl) f n, hBadd, hBmul]
    congr 1
    set P := (minterms B f n).map (fun t => t.foldl AND 1) with hPdef
    have hP01 : ∀ p ∈ P, p = 0 ∨ p = 1 := by
      intro p hp
      rw [hPdef, List.mem_map] at hp
      obtain ⟨t, ht, rfl⟩ := hp
      have hcomp := (B_operand_comps (List.mem_filter.mp ht).1).2
      rw [foldl_AND t 1 (Or.inr rfl) hcomp]
      split
      · exact Or.inl rfl
      · exact Or.inr rfl
    rw [foldl_OR P 0 (Or.inl rfl) hP01]
    have hiff : 1 ∈ P ↔ f (List.replicate n 1) ≠ 0 := by
      constructor
      · intro hmem
        rw [hPdef, List.mem_map] at hmem
        obtain ⟨t, ht, hpt⟩ := hmem
        obtain ⟨htop, htf⟩ := List.mem_filter.mp ht
        have hcomp := B_operand_comps htop
        rw [foldl_AND t 1 (Or.inr rfl) hcomp.2] at hpt
        have h0t : (0 : ℤ) ∉ t := by
          intro hc
          rw [if_pos (Or.inr hc)] at hpt
          exact absurd hpt (by norm_num)
        have hteq : t = List.replicate n 1 := by
          refine List.eq_replicate_iff.mpr ⟨hcomp.1, fun b hb => ?_⟩
          rcases hcomp.2 b hb with rfl | rfl
          · exact absurd hb h0t
          · rfl
        rw [hteq] at htf
        simpa [bne_iff_ne] using htf
      · intro hne
        have hmemfilter : List.replicate n 1 ∈ minterms B f n :=
          List.mem_filter.mpr ⟨replicate_one_mem_operands n, by simpa [bne_iff_ne] using hne⟩
        refine List.mem_map.mpr ⟨_, hmemfilter, ?_⟩
        rw [foldl_AND _ 1 (Or.inr rfl) (fun x hx => Or.inr (List.eq_of_mem_replicate hx))]
        have hnz : (0 : ℤ) ∉ List.replicate n 1 := by
          intro hc
          have := List.eq_of_mem_replicate hc
          norm_num at this
        simp [hnz]
    by_cases hf : f (List.replicate n 1) = 0
    · have h1P : 1 ∉ P := fun hc => (hiff.mp hc) hf
      simp [hf, h1P]
    · simp [hf, hiff.mpr hf]
  · rw [CNFcall_eq (show B.item0pv = PyVal.elem 0 from rfl)
        (show B.item1pv = PyVal.elem 1 from rfl) f n, hBadd, hBmul]
    congr 1
    set Q := (maxterms B f n).map (fun c => c.foldl OR 0) with hQdef
    have hQ01 : ∀ q ∈ Q, q = 0 ∨ q = 1 := by
      intro q hq
      rw [hQdef, List.mem_map] at hq
      obtain ⟨c, hc, rfl⟩ := hq
      rw [maxterms, List.mem_map] at hc
      obtain ⟨t, ht, rfl⟩ := hc
      rw [hBinv, foldl_OR _ 0 (Or.inl rfl) (fun x hx => by
        obtain ⟨y, hy, rfl⟩ := List.mem_map.mp hx
        exact NOT_cases y)]
      split
      · exact Or.inr rfl
      · exact Or.inl rfl
    rw [foldl_AND Q 1 (Or.inr rfl) hQ01]
    have hiff : 0 ∈ Q ↔ f (List.replicate n 1) = 0 := by
      constructor
      · intro hmem
        rw [hQdef, List.mem_map] at hmem
        obtain ⟨c, hc, hval⟩ := hmem
        rw [maxterms, List.mem_map] at hc
        obtain ⟨t, ht, rfl⟩ := hc
        obtain ⟨htop, htf⟩ := List.mem_filter.mp ht
        have hcomp := B_operand_comps htop
        rw [hBinv] at hval
        rw [foldl_OR _ 0 (Or.inl rfl) (fun x hx => by
          obtain ⟨y, hy, rfl⟩ := List.mem_map.mp hx
          exact NOT_cases y)] at hval
        have hno1 : (1 : ℤ) ∉ t.map NOT := by
          intro hc1
          rw [if_pos (Or.inr hc1)] at hval
          exact absurd hval (by norm_num)
        have hteq : t = List.replicate n 1 := by
          refine List.eq_replicate_iff.mpr ⟨hcomp.1, fun b hb => ?_⟩
          rcases hcomp.2 b hb with rfl | rfl
          · exact absurd (List.mem_map.mpr ⟨0, hb, by simp [NOT]⟩) hno1
          · rfl
        rw [hteq] at htf
        simpa using htf
      · intro hf
        have hmemfilter : List.replicate n 1 ∈
            (B.operands n).filter (fun t => f t == 0) :=
          List.mem_filter.mpr ⟨replicate_one_mem_operands n, by simpa using hf⟩
        refine List.mem_map.mpr ⟨(List.replicate n 1).map B.inv,
          List.mem_map.mpr ⟨_, hmemfilter, rfl⟩, ?_⟩
        rw [hBinv]
        rw [foldl_OR _ 0 (Or.inl rfl) (fun x hx => by
          obtain ⟨y, hy, rfl⟩ := List.mem_map.mp hx
          exact NOT_cases y)]
        have hno1 : (1 : ℤ) ∉ (List.replicate n 1).map NOT := by
          intro hc1
          obtain ⟨y, hy, hy1⟩ := List.mem_map.mp hc1
          rw [List.eq_of_mem_replicate hy] at hy1
          simp [NOT] at hy1
        rw [if_neg]
        rintro (h | h)
        · exact absurd h (by norm_num)
        · exact hno1 h
    by_cases hf : f (List.replicate n 1) = 0
    · simp [hf, hiff.mpr hf]
    · have h0Q : 0 ∉ Q := fun hc => hf (hiff.mp hc)
      simp [hf, h0Q]

/-- C2 counterexample: for the arity-1 identity formula over `B`, the
negation of the CNF maxterm set is `{(0,)}` (the falsifying rows) while the
DNF minterm set is `{(1,)}` — the two sets are not equal. -/
theorem C2_counterexample :
    minterms B (fun t => t.getD 0 0) 1 = [[1]] ∧
    (maxterms B (fun t => t.getD 0 0) 1).map (List.map NOT) = [[0]] ∧
    ¬((maxterms B (fun t => t.getD 0 0) 1).map (List.map NOT)
        = minterms B (fun t => t.getD 0 0) 1) := by
  refine ⟨rfl, rfl, by decide⟩

theorem map_invol_id {l : List (List ℤ)} (h : ∀ t ∈ l, (t.map NOT).map NOT = t) :
    l.map (fun t => (t.map NOT).map NOT) = l := by
  induction l with
  | nil => rfl
  | cons a l ih =>
      simp only [List.map_cons, List.cons.injEq]
      exact ⟨h a (by simp), ih (fun t ht => h t (by simp [ht]))⟩

/-- C2 (amended): every operand tuple is yielded by exactly one of DNF (as a
minterm, when the formula is truthy there) or CNF (complemented, as a
maxterm, when it is falsy), so `|DNF| + |CNF| = 2^n`; and the negation of
the CNF maxterm set equals the set of falsifying tuples — the complement of
the DNF minterm set within the operand space (not the minterm set itself). -/
theorem C2_minterm_maxterm_partition (n : ℕ) (f : List ℤ → ℤ) :
    (∀ t ∈ B.operands n,
      (t ∈ minterms B f n ↔ f t ≠ 0) ∧ (t.map NOT ∈ maxterms B f n ↔ f t = 0)) ∧
    (minterms B f n).length + (maxterms B f n).length = 2 ^ n ∧
    (maxterms B f n).map (List.map NOT) = (B.operands n).filter (fun t => f t == 0) := by
  have hBinv : B.inv = NOT := rfl
  refine ⟨?_, ?_, ?_⟩
  · intro t ht
    constructor
    · rw [minterms, List.mem_filter]
      simp [ht, bne_iff_ne]
    · constructor
      · intro h
        rw [maxterms, hBinv, List.mem_map] at h
        obtain ⟨t', ht', heq⟩ := h
        obtain ⟨ht'op, ht'f⟩ := List.mem_filter.mp ht'
        have hcomp' := (B_operand_comps ht'op).2
        have hcompt := (B_operand_comps ht).2
        have ht'eq : t' = t := by
          have h2 : (t'.map NOT).map NOT = (t.map NOT).map NOT := by rw [heq]
          rwa [mapNOT_invol hcomp', mapNOT_invol hcompt] at h2
        rw [ht'eq] at ht'f
        simpa using ht'f
      · intro hf
        rw [maxterms, hBinv, List.mem_map]
        exact ⟨t, List.mem_filter.mpr ⟨ht, by simpa using hf⟩, rfl⟩
  · have hlen : (B.operands n).length = 2 ^ n := by
      show (listProd (sortedElems B) n).length = 2 ^ n
      rw [length_listProd]
      rfl
    have hpart := length_filter_partition (fun t => f t != 0) (B.operands n)
    have hfe : (fun t : List ℤ => !(f t != 0)) = (fun t => f t == 0) := by
      funext t
      simp [bne]
    rw [hfe] at hpart
    rw [minterms, maxterms, List.length_map]
    omega
  · rw [maxterms, hBinv, List.map_map]
    exact map_invol_id (fun t' ht' =>
      mapNOT_invol (B_operand_comps (List.mem_filter.mp ht').1).2)

/-- C2 witness: the amended partition applied at arity `1` to the identity
formula and the tuple `(1,)`. -/
theorem C2_witness :
    (([1] ∈ minterms B (fun t => t.getD 0 0) 1 ↔ (1 : ℤ) ≠ 0) ∧
     (([1] : List ℤ).map NOT ∈ maxterms B (fun t => t.getD 0 0) 1 ↔ (1 : ℤ) = 0)) ∧
    (minterms B (fun t => t.getD 0 0) 1).length
      + (maxterms B (fun t => t.getD 0 0) 1).length = 2 ^ 1 :=
  ⟨(C2_minterm_maxterm_partition 1 (fun t => t.getD 0 0)).1 [1] (by decide),
   (C2_minterm_maxterm_partition 1 (fun t => t.getD 0 0)).2.1⟩

end Logical
